import Mathlib

/-!
# Verification of the llama-api-tester endpoint-state management subsystem

Shallow embedding of `src/main.py`: the validation cache, the per-server
metadata/model cache, server validation and availability filtering, the
session navigation loop, and the generation stream consumer.

Modelling conventions:
* Python `dict` objects are embedded as insertion-ordered association lists
  (`Dict`), with `dictGet`/`dictSet` mirroring `d.get(k)` / `d[k] = v`.
* `datetime` values are embedded as `Int` seconds; `timedelta(minutes=30)` is
  `freshWindow = 30 * 60`. `datetime.isoformat` / `datetime.fromisoformat` are
  library collaborators, embedded as decimal printing / parsing of that `Int`
  (any string that is not such a serialization fails to parse, which is what
  matters for the control flow of the loader).
* Network calls (`aiohttp` requests) are collaborators: their outcomes enter
  the embedding as explicit parameters (a probe oracle `String → Bool`, a
  catalog `FetchResult`, a list of stream fragments).
* Fallible Python code (uncaught exceptions) is embedded as `Except String`.
-/

namespace LlamaApiTester

/-- Insertion-ordered association list embedding a Python `dict` with `String`
keys: lookups scan from the front, updates overwrite in place. -/
abbrev Dict (α : Type) := List (String × α)

/-- Embeds `d.get(k)` on a Python dict: the value at `k`, or `none`. -/
def dictGet {α : Type} (m : Dict α) (k : String) : Option α :=
  match m with
  | [] => none
  | (k', v) :: rest => if k' = k then some v else dictGet rest k

/-- Embeds `d[k] = v` on a Python dict: overwrite in place, else append. -/
def dictSet {α : Type} (m : Dict α) (k : String) (v : α) : Dict α :=
  match m with
  | [] => [(k, v)]
  | (k', v') :: rest => if k' = k then (k, v) :: rest else (k', v') :: dictSet rest k v

@[simp] theorem dictGet_nil {α : Type} (k : String) : dictGet ([] : Dict α) k = none := rfl

@[simp] theorem dictGet_set_self {α : Type} (m : Dict α) (k : String) (v : α) :
    dictGet (dictSet m k v) k = some v := by
  induction m with
  | nil => simp [dictGet, dictSet]
  | cons hd tl ih =>
    obtain ⟨k', v'⟩ := hd
    by_cases h : k' = k <;> simp [dictGet, dictSet, h, ih]

theorem dictGet_set_ne {α : Type} (m : Dict α) {k k' : String} (v : α) (h : k' ≠ k) :
    dictGet (dictSet m k' v) k = dictGet m k := by
  induction m with
  | nil => simp [dictGet, dictSet, h]
  | cons hd tl ih =>
    obtain ⟨k'', v''⟩ := hd
    by_cases h' : k'' = k' <;> by_cases h'' : k'' = k <;>
      simp_all [dictGet, dictSet]

/-! ## Validation records (`cache/server_status.csv` entries) -/

/-- `CACHE_VALIDITY_MINUTES = 30` from `src/main.py`. -/
def CACHE_VALIDITY_MINUTES : Int := 30

/-- `timedelta(minutes=CACHE_VALIDITY_MINUTES)` in seconds. -/
def freshWindow : Int := CACHE_VALIDITY_MINUTES * 60

/-- One in-memory validation cache entry: `{'valid': bool, 'timestamp': datetime}`. -/
structure ValidationRecord where
  valid : Bool
  timestamp : Int
deriving Repr, DecidableEq

/-- The freshness test inlined at `src/main.py:111` (and mirrored at line 162):
`(current_time - cached['timestamp']) < timedelta(minutes=CACHE_VALIDITY_MINUTES)`. -/
def isFreshAt (r : ValidationRecord) (now : Int) : Bool :=
  decide (now - r.timestamp < freshWindow)

@[simp] theorem isFreshAt_now (v : Bool) (t : Int) : isFreshAt ⟨v, t⟩ t = true := by
  simp [isFreshAt, freshWindow, CACHE_VALIDITY_MINUTES]

/-! ## ServerMetadata (`cache/server_metadata.json`) -/

/-- `{'id': ...}` entries of the catalog; only the `id` field is ever read
(`model['id']` at `src/main.py:227,238`). -/
structure ModelDescriptor where
  id : String
deriving Repr, DecidableEq

/-- One per-server metadata object: the Python dict that may hold the keys
`'note'`, `'models'`, `'models_cached_at'` (absent key = `none`). -/
structure MetaEntry where
  note : Option String
  models : Option (List ModelDescriptor)
  models_cached_at : Option Int
deriving Repr, DecidableEq

/-- The fresh `{}` assigned by `self.data[server] = {}`. -/
def MetaEntry.empty : MetaEntry := ⟨none, none, none⟩

/-- `ServerMetadata.data`: server address → metadata object. -/
abbrev MetaState := Dict MetaEntry

/-- `ServerMetadata.get_note`: `self.data.get(server, {}).get('note', '')`. -/
def get_note (st : MetaState) (server : String) : String :=
  (((dictGet st server).getD MetaEntry.empty).note).getD ""

/-- `ServerMetadata.set_note`: upsert the `'note'` key (plus `self.save()`,
a collaborator write of the returned state). -/
def set_note (st : MetaState) (server : String) (note : String) : MetaState :=
  let entry := (dictGet st server).getD MetaEntry.empty
  dictSet st server { entry with note := some note }

/-- `ServerMetadata.cache_models`: upsert the `'models'` and
`'models_cached_at'` keys with `datetime.now()` (passed as `now`). -/
def cache_models (st : MetaState) (server : String) (models : List ModelDescriptor)
    (now : Int) : MetaState :=
  let entry := (dictGet st server).getD MetaEntry.empty
  dictSet st server { entry with models := some models, models_cached_at := some now }

/-- `ServerMetadata.get_cached_models`:
`self.data.get(server, {}).get('models', [])`. -/
def get_cached_models (st : MetaState) (server : String) : List ModelDescriptor :=
  (((dictGet st server).getD MetaEntry.empty).models).getD []

/-! ## Persisted-file loaders -/

/-- Content of a backing file as seen by a loader: the file may be missing,
may exist but fail the collaborator parser (`json.loads` raising), or parse
to a value. -/
inductive FileContent (α : Type) where
  | missing
  | malformed
  | parsed (v : α)
deriving Repr, DecidableEq

/-- `ServerMetadata._load_metadata`: only guard is `SERVER_METADATA_FILE.exists()`;
a missing file yields `{}`, while `json.loads` on unparseable content raises
`json.JSONDecodeError`, which nothing catches. -/
def load_metadata (file : FileContent MetaState) : Except String MetaState :=
  match file with
  | .missing => .ok []
  | .malformed => .error "json.JSONDecodeError"
  | .parsed v => .ok v

/-- One row produced by `csv.DictReader` over `cache/server_status.csv`:
the textual `server`, `valid` and `timestamp` fields. -/
structure CsvRow where
  server : String
  valid : String
  timestamp : String
deriving Repr, DecidableEq

/-- `datetime.isoformat` at the library boundary: serialize the embedded
timestamp as its decimal digits. -/
def isoformat (t : Int) : String := toString t

/-- Decimal digit accumulator used by the timestamp parser. -/
def parseNatAux : List Char → Nat → Option Nat
  | [], acc => some acc
  | c :: rest, acc =>
    if c.isDigit then parseNatAux rest (acc * 10 + (c.toNat - 48)) else none

/-- Parse an optionally negated decimal digit string. -/
def parseDecimal (s : String) : Option Int :=
  match s.data with
  | [] => none
  | '-' :: rest =>
    match rest with
    | [] => none
    | _ => (parseNatAux rest 0).map (fun n => -(n : Int))
  | l => (parseNatAux l 0).map (fun n => (n : Int))

/-- `datetime.fromisoformat` at the library boundary: parse the decimal
serializations of embedded timestamps; anything else raises `ValueError`. -/
def fromisoformat (s : String) : Except String Int :=
  match parseDecimal s with
  | some t => .ok t
  | none => .error "ValueError: Invalid isoformat string"

/-- The `for row in reader` loop of `_load_validation_cache`: each row is
written into the dict, and `datetime.fromisoformat(row['timestamp'])` raises
out of the loop on the first unparseable timestamp (nothing catches it). -/
def loadRows (rows : List CsvRow) (cache : Dict ValidationRecord) :
    Except String (Dict ValidationRecord) :=
  match rows with
  | [] => .ok cache
  | row :: rest =>
    match fromisoformat row.timestamp with
    | .error e => .error e
    | .ok ts => loadRows rest (dictSet cache row.server ⟨row.valid = "True", ts⟩)

/-- `ServerManager._load_validation_cache`: the only guard is
`VALIDATION_CACHE_FILE.exists()` (`none` = missing file, yielding `{}`);
otherwise `csv.DictReader` delivers the rows (it does not itself reject
content) and they are folded into a dict by `loadRows`, out of which a bad
timestamp raises. -/
def load_validation_cache (file : Option (List CsvRow)) :
    Except String (Dict ValidationRecord) :=
  match file with
  | none => .ok []
  | some rows => loadRows rows []

/-- `ServerManager._save_validation_cache`: one row per dict entry, the
timestamp serialized with `isoformat`. -/
def save_validation_cache (cache : Dict ValidationRecord) : List CsvRow :=
  cache.map (fun p => ⟨p.1, if p.2.valid then "True" else "False", isoformat p.2.timestamp⟩)

/-! ## ServerManager.validate_all_servers (`src/main.py:103-146`) -/

/-- Mutable state threaded through the `for server in self.servers` loop:
the cache dict, `self.valid_servers`, `invalid_servers`, and (for the
specification only) the addresses for which `validate_server` was awaited. -/
structure PassAcc where
  cache : Dict ValidationRecord
  valid : List String
  invalid : List String
  probed : List String
deriving Repr, DecidableEq

/-- The probe branch (`src/main.py:122-136`): `await self.validate_server(server)`
(outcome given by the oracle `probe`), then `cache[server] = {'valid': is_valid,
'timestamp': current_time}` and classification. -/
def probeUpdate (probe : String → Bool) (now : Int) (acc : PassAcc) (server : String) :
    PassAcc :=
  let is_valid := probe server
  { cache := dictSet acc.cache server ⟨is_valid, now⟩
    valid := if is_valid then acc.valid ++ [server] else acc.valid
    invalid := if is_valid then acc.invalid else acc.invalid ++ [server]
    probed := acc.probed ++ [server] }

/-- One iteration of the loop body (`src/main.py:109-136`): a fresh cached
record short-circuits with its verdict (`continue`), anything else probes. -/
def validateStep (probe : String → Bool) (now : Int) (acc : PassAcc) (server : String) :
    PassAcc :=
  match dictGet acc.cache server with
  | some cached =>
    if isFreshAt cached now then
      if cached.valid then { acc with valid := acc.valid ++ [server] }
      else { acc with invalid := acc.invalid ++ [server] }
    else probeUpdate probe now acc server
  | none => probeUpdate probe now acc server

/-- The whole loop over `self.servers`. -/
def validatePass (probe : String → Bool) (now : Int) (acc : PassAcc) :
    List String → PassAcc
  | [] => acc
  | server :: rest => validatePass probe now (validateStep probe now acc server) rest

/-- Result of `validate_all_servers`: the returned `self.valid_servers`, the
reported `invalid_servers`, the saved cache, the possibly pruned
`self.servers`, and the probed addresses. -/
structure ValidateResult where
  validServers : List String
  invalidServers : List String
  cache : Dict ValidationRecord
  servers : List String
  probed : List String
deriving Repr, DecidableEq

/-- `ServerManager.validate_all_servers`: run the pass over a freshly loaded
cache, save the cache, then — only when `invalid_servers` is nonempty — ask
the operator (`pruneAnswer`) whether to replace `self.servers` with
`self.valid_servers`. -/
def validate_all_servers (probe : String → Bool) (now : Int) (pruneAnswer : Bool)
    (servers : List String) (cache0 : Dict ValidationRecord) : ValidateResult :=
  let acc := validatePass probe now ⟨cache0, [], [], []⟩ servers
  let servers' :=
    if acc.invalid ≠ [] then (if pruneAnswer then acc.valid else servers) else servers
  ⟨acc.valid, acc.invalid, acc.cache, servers', acc.probed⟩

/-! ## ServerManager.get_available_servers (`src/main.py:148-164`) -/

/-- The fallback filter in the operator-declines branch (`src/main.py:159-163`):
`cache.get(server, {}).get('valid', True)` — an absent record defaults to
valid — and `(current_time - cache.get(server, {}).get('timestamp',
current_time)) < timedelta(minutes=CACHE_VALIDITY_MINUTES)` — an absent
record's age defaults to zero. -/
def declinedFilter (servers : List String) (cache : Dict ValidationRecord)
    (now : Int) : List String :=
  servers.filter (fun server =>
    (((dictGet cache server).map ValidationRecord.valid).getD true) &&
    decide (now - (((dictGet cache server).map ValidationRecord.timestamp).getD now)
      < freshWindow))

/-- Result of `get_available_servers`: the returned `self.valid_servers` plus
the resulting `self.servers` (changed only by an accepted prune). -/
structure AvailResult where
  validServers : List String
  servers : List String
deriving Repr, DecidableEq

/-- `ServerManager.get_available_servers`: when `validate_first` and the
operator answers yes, run `validate_all_servers`; when the operator declines,
recompute `self.valid_servers` with `declinedFilter`; otherwise return the
pre-existing `self.valid_servers` (`validServers0`). -/
def get_available_servers (validate_first : Bool) (answerValidate : Bool)
    (probe : String → Bool) (now : Int) (pruneAnswer : Bool)
    (servers validServers0 : List String) (cache0 : Dict ValidationRecord) :
    AvailResult :=
  if validate_first then
    if answerValidate then
      let r := validate_all_servers probe now pruneAnswer servers cache0
      ⟨r.validServers, r.servers⟩
    else
      ⟨declinedFilter servers cache0 now, servers⟩
  else ⟨validServers0, servers⟩

/-! ## LLMClient (`src/main.py:166-263`) -/

/-- `str.startswith` at the library boundary, on the character lists. -/
def strStartsWith (s p : String) : Bool := p.data.isPrefixOf s.data

/-- `validate_server` / `select_server` address normalization
(`src/main.py:94-95` and `198-199`): prefix `http://` when no scheme. -/
def normalizeAddr (s : String) : String :=
  if strStartsWith s "http://" || strStartsWith s "https://" then s else "http://" ++ s

/-- Outcome of the live `GET {base_url}/v1/models` (collaborator): a 2xx
response carrying `data.get("data", [])`, or a non-2xx status. -/
inductive FetchResult where
  | ok (data : List ModelDescriptor)
  | httpError
deriving Repr, DecidableEq

/-- Result of `get_models`: the returned list, the resulting metadata store,
and whether a live network fetch was performed. -/
structure GetModelsResult where
  models : List ModelDescriptor
  meta : MetaState
  fetched : Bool
deriving Repr, DecidableEq

/-- `LLMClient.get_models` (`src/main.py:202-218`): `if cached_models:` —
truthiness, so only a NON-EMPTY cached list short-circuits; otherwise the
live fetch runs and a 2xx result is written back with `cache_models`. -/
def get_models (base_url : String) (meta : MetaState) (now : Int)
    (live : FetchResult) : GetModelsResult :=
  let cached_models := get_cached_models meta base_url
  if cached_models ≠ [] then ⟨cached_models, meta, false⟩
  else
    match live with
    | .ok data => ⟨data, cache_models meta base_url data now, true⟩
    | .httpError => ⟨[], meta, true⟩

/-! ## Generation stream consumer (`src/main.py:241-263`) -/

/-- One newline-delimited line of the generation response body:
`json.loads` either raises (`malformed`) or yields an object whose optional
`response` field is a string. -/
inductive StreamFragment where
  | malformed
  | obj (response : Option String)
deriving Repr, DecidableEq

/-- The `async for line in response.content` loop: malformed lines are
swallowed by the `except json.JSONDecodeError`, and `if data.get("response"):`
prints only truthy (non-empty) response strings. Recursion is structural, so
the consumer terminates at stream end. -/
def generateOutput : List StreamFragment → String
  | [] => ""
  | .malformed :: rest => generateOutput rest
  | .obj none :: rest => generateOutput rest
  | .obj (some s) :: rest => (if s = "" then "" else s) ++ generateOutput rest

/-- The response fields carried by the well-formed fragments, in stream
order — the specification's description of the emitted output. -/
def carriedResponses (frags : List StreamFragment) : List String :=
  frags.filterMap (fun f =>
    match f with
    | .obj (some s) => some s
    | _ => none)

/-! ## Session navigation loop (`src/main.py:265-295`) -/

/-- The three interactive phases of `main`'s nested loops. -/
inductive SessionPhase where
  | selectingServer
  | selectingModel
  | prompting
deriving Repr, DecidableEq

/-- Session state carried by `main` and `LLMClient`: the phase of the nested
loops plus `client.base_url` and `client.selected_model`. -/
structure SessionState where
  phase : SessionPhase
  base_url : String
  selected_model : Option String
deriving Repr, DecidableEq

/-- `str.lower` at the library boundary, on the character lists. -/
def strToLower (s : String) : String := ⟨s.data.map Char.toLower⟩

/-- One prompt entered in the innermost loop (`src/main.py:284-295`):
`prompt.lower() in ['b', 's']` breaks out — `'s'` further breaks the model
loop back to server selection, `'b'` re-enters model selection — and
anything else is dispatched to `client.generate` (second component). -/
def promptStep (st : SessionState) (input : String) : SessionState × Option String :=
  if strToLower input = "b" ∨ strToLower input = "s" then
    if strToLower input = "s" then ({ st with phase := .selectingServer }, none)
    else ({ st with phase := .selectingModel }, none)
  else (st, some input)

/-! ## Validation-pass characterization lemmas -/

/-- The verdict a validation pass reaches for an address, in terms of the
initially loaded cache: a fresh record's stored verdict, otherwise the live
probe's outcome. -/
def verdict (probe : String → Bool) (now : Int) (cache0 : Dict ValidationRecord)
    (s : String) : Bool :=
  match dictGet cache0 s with
  | some r => if isFreshAt r now then r.valid else probe s
  | none => probe s

/-- Invariant of the loop cache: every address still holds its initially
loaded record, or already holds the freshly written record carrying its
verdict. -/
def CacheInv (probe : String → Bool) (now : Int)
    (cache0 c : Dict ValidationRecord) : Prop :=
  ∀ t, dictGet c t = dictGet cache0 t ∨ dictGet c t = some ⟨verdict probe now cache0 t, now⟩

theorem validateStep_frame (probe : String → Bool) (now : Int) (acc : PassAcc)
    {u s : String} (hne : u ≠ s) :
    dictGet (validateStep probe now acc u).cache s = dictGet acc.cache s ∧
    (s ∈ (validateStep probe now acc u).probed ↔ s ∈ acc.probed) := by
  have hprobe : dictGet (probeUpdate probe now acc u).cache s = dictGet acc.cache s ∧
      (s ∈ (probeUpdate probe now acc u).probed ↔ s ∈ acc.probed) := by
    refine ⟨dictGet_set_ne _ _ hne, ?_⟩
    simp [probeUpdate, hne.symm]
  rcases h : dictGet acc.cache u with _ | r
  · simpa [validateStep, h] using hprobe
  · by_cases hf : isFreshAt r now
    · by_cases hv : r.valid <;> simp [validateStep, h, hf, hv]
    · simpa [validateStep, h, hf] using hprobe

theorem validateStep_spec (probe : String → Bool) (now : Int) (cache0 : Dict ValidationRecord)
    (acc : PassAcc) (u : String) (hc : CacheInv probe now cache0 acc.cache) :
    CacheInv probe now cache0 (validateStep probe now acc u).cache ∧
    (validateStep probe now acc u).valid =
      acc.valid ++ (if verdict probe now cache0 u then [u] else []) ∧
    (validateStep probe now acc u).invalid =
      acc.invalid ++ (if verdict probe now cache0 u then [] else [u]) := by
  have hkeep : ∀ c : Dict ValidationRecord, CacheInv probe now cache0 c →
      CacheInv probe now cache0 (dictSet c u ⟨verdict probe now cache0 u, now⟩) := by
    intro c hcv t
    by_cases ht : t = u
    · subst ht
      right
      exact dictGet_set_self _ _ _
    · rw [dictGet_set_ne _ _ (fun h => ht h.symm)]
      exact hcv t
  have hprobeCase : probe u = verdict probe now cache0 u →
      CacheInv probe now cache0 (probeUpdate probe now acc u).cache ∧
      (probeUpdate probe now acc u).valid =
        acc.valid ++ (if verdict probe now cache0 u then [u] else []) ∧
      (probeUpdate probe now acc u).invalid =
        acc.invalid ++ (if verdict probe now cache0 u then [] else [u]) := by
    intro hpv
    refine ⟨?_, ?_, ?_⟩
    · have := hkeep acc.cache hc
      simpa [probeUpdate, hpv] using this
    · by_cases h : verdict probe now cache0 u <;> simp [probeUpdate, hpv, h]
    · by_cases h : verdict probe now cache0 u <;> simp [probeUpdate, hpv, h]
  rcases hc u with hsame | hnew
  · rcases h0 : dictGet cache0 u with _ | r
    · have hv : verdict probe now cache0 u = probe u := by simp [verdict, h0]
      have hget : dictGet acc.cache u = none := by rw [hsame, h0]
      have := hprobeCase hv.symm
      simpa [validateStep, hget] using this
    · by_cases hf : isFreshAt r now
      · have hv : verdict probe now cache0 u = r.valid := by simp [verdict, h0, hf]
        have hget : dictGet acc.cache u = some r := by rw [hsame, h0]
        by_cases hrv : r.valid <;>
          simp [validateStep, hget, hf, hrv, hv, hc]
      · have hv : verdict probe now cache0 u = probe u := by simp [verdict, h0, hf]
        have hget : dictGet acc.cache u = some r := by rw [hsame, h0]
        have := hprobeCase hv.symm
        simpa [validateStep, hget, hf] using this
  · have hget : dictGet acc.cache u = some ⟨verdict probe now cache0 u, now⟩ := hnew
    have hf : isFreshAt ⟨verdict probe now cache0 u, now⟩ now = true := isFreshAt_now _ _
    by_cases hv : verdict probe now cache0 u <;>
      simp [validateStep, hget, hf, hv, hc]

theorem validatePass_spec (probe : String → Bool) (now : Int)
    (cache0 : Dict ValidationRecord) (l : List String) :
    ∀ acc : PassAcc, CacheInv probe now cache0 acc.cache →
      CacheInv probe now cache0 (validatePass probe now acc l).cache ∧
      (validatePass probe now acc l).valid =
        acc.valid ++ l.filter (verdict probe now cache0) ∧
      (validatePass probe now acc l).invalid =
        acc.invalid ++ l.filter (fun s => !(verdict probe now cache0 s)) := by
  induction l with
  | nil => intro acc hc; simpa [validatePass] using hc
  | cons u rest ih =>
    intro acc hc
    obtain ⟨hc', hv, hi⟩ := validateStep_spec probe now cache0 acc u hc
    obtain ⟨hc'', hv', hi'⟩ := ih _ hc'
    refine ⟨hc'', ?_, ?_⟩
    · rw [validatePass, hv', hv]
      by_cases h : verdict probe now cache0 u <;>
        simp [h, List.filter_cons]
    · rw [validatePass, hi', hi]
      by_cases h : verdict probe now cache0 u <;>
        simp [h, List.filter_cons]

theorem validatePass_fresh_not_probed (probe : String → Bool) (now : Int)
    {s : String} {r : ValidationRecord} (hf : isFreshAt r now = true) :
    ∀ (l : List String) (acc : PassAcc),
      dictGet acc.cache s = some r → s ∉ acc.probed →
      dictGet (validatePass probe now acc l).cache s = some r ∧
      s ∉ (validatePass probe now acc l).probed := by
  intro l
  induction l with
  | nil => intro acc h1 h2; exact ⟨h1, h2⟩
  | cons u rest ih =>
    intro acc h1 h2
    by_cases hu : u = s
    · subst hu
      have hstep : (validateStep probe now acc u).cache = acc.cache ∧
          (validateStep probe now acc u).probed = acc.probed := by
        by_cases hv : r.valid <;> simp [validateStep, h1, hf, hv]
      rw [validatePass]
      exact ih _ (hstep.1.symm ▸ h1) (hstep.2.symm ▸ h2)
    · obtain ⟨hcf, hpf⟩ := validateStep_frame probe now acc hu
      rw [validatePass]
      exact ih _ (hcf.symm ▸ h1) (fun hmem => h2 (hpf.mp hmem))

theorem validatePass_probed_stable (probe : String → Bool) (now : Int) (s : String) :
    ∀ (l : List String) (acc : PassAcc),
      dictGet acc.cache s = some ⟨probe s, now⟩ → s ∈ acc.probed →
      dictGet (validatePass probe now acc l).cache s = some ⟨probe s, now⟩ ∧
      s ∈ (validatePass probe now acc l).probed := by
  intro l
  induction l with
  | nil => intro acc h1 h2; exact ⟨h1, h2⟩
  | cons u rest ih =>
    intro acc h1 h2
    by_cases hu : u = s
    · subst hu
      have hf : isFreshAt ⟨probe u, now⟩ now = true := isFreshAt_now _ _
      have hstep : (validateStep probe now acc u).cache = acc.cache ∧
          (validateStep probe now acc u).probed = acc.probed := by
        by_cases hv : probe u <;> simp [validateStep, h1, hf, hv]
      rw [validatePass]
      exact ih _ (hstep.1.symm ▸ h1) (hstep.2.symm ▸ h2)
    · obtain ⟨hcf, hpf⟩ := validateStep_frame probe now acc hu
      rw [validatePass]
      exact ih _ (hcf.symm ▸ h1) (hpf.mpr h2)

theorem validatePass_stale_probes (probe : String → Bool) (now : Int)
    (cache0 : Dict ValidationRecord) (s : String)
    (hstale : ∀ r, dictGet cache0 s = some r → isFreshAt r now = false) :
    ∀ (l : List String) (acc : PassAcc),
      dictGet acc.cache s = dictGet cache0 s → s ∈ l →
      dictGet (validatePass probe now acc l).cache s = some ⟨probe s, now⟩ ∧
      s ∈ (validatePass probe now acc l).probed := by
  intro l
  induction l with
  | nil => intro acc _ h2; exact absurd h2 (List.not_mem_nil s)
  | cons u rest ih =>
    intro acc h1 h2
    by_cases hu : u = s
    · subst hu
      have hstep : dictGet (validateStep probe now acc u).cache u = some ⟨probe u, now⟩ ∧
          u ∈ (validateStep probe now acc u).probed := by
        rcases h0 : dictGet cache0 u with _ | r
        · have hget : dictGet acc.cache u = none := by rw [h1, h0]
          simp [validateStep, hget, probeUpdate]
        · have hget : dictGet acc.cache u = some r := by rw [h1, h0]
          have hnf := hstale r h0
          simp [validateStep, hget, hnf, probeUpdate]
      rw [validatePass]
      exact validatePass_probed_stable probe now u rest _ hstep.1 hstep.2
    · obtain ⟨hcf, hpf⟩ := validateStep_frame probe now acc hu
      rw [validatePass]
      have h2' : s ∈ rest := by
        rcases List.mem_cons.mp h2 with h | h
        · exact absurd h.symm hu
        · exact h
      exact ih _ (hcf.symm ▸ h1) h2'

/-- Spec-side description of the consumer output: the concatenation of a list
of response strings, in order. -/
def joinAll : List String → String
  | [] => ""
  | s :: rest => s ++ joinAll rest

/-- Auxiliary lemmas for the load-failure claims. -/
theorem loadRows_isOk_false (rows : List CsvRow) :
    ∀ acc : Dict ValidationRecord,
      (∃ r ∈ rows, (fromisoformat r.timestamp).isOk = false) →
      (loadRows rows acc).isOk = false := by
  induction rows with
  | nil => intro acc h; obtain ⟨r, hr, _⟩ := h; exact absurd hr (List.not_mem_nil r)
  | cons row rest ih =>
    intro acc h
    rcases hp : fromisoformat row.timestamp with e | ts
    · simp [loadRows, hp, Except.isOk, Except.toBool]
    · obtain ⟨r, hr, hbad⟩ := h
      rcases List.mem_cons.mp hr with rfl | hmem
      · rw [hp] at hbad
        simp [Except.isOk, Except.toBool] at hbad
      · rw [loadRows, hp]
        exact ih _ ⟨r, hmem, hbad⟩

theorem loadRows_isOk_true (rows : List CsvRow) :
    ∀ acc : Dict ValidationRecord,
      (∀ r ∈ rows, (fromisoformat r.timestamp).isOk = true) →
      (loadRows rows acc).isOk = true := by
  induction rows with
  | nil => intro acc _; rfl
  | cons row rest ih =>
    intro acc h
    rcases hp : fromisoformat row.timestamp with e | ts
    · have := h row (List.mem_cons_self row rest)
      rw [hp] at this
      simp [Except.isOk, Except.toBool] at this
    · rw [loadRows, hp]
      exact ih _ (fun r hr => h r (List.mem_cons_of_mem row hr))

/-! ## Claim theorems -/

/-- C1: the claim says that when the operator declines re-validation,
`get_available_servers` returns only addresses whose cached record is
present, fresh and explicitly valid, so an address with an ABSENT record is
not returned. The code (`src/main.py:161-162`) defaults an absent record's
`valid` to `True` and its age to zero, so a known address with no cached
record at all IS returned: with one known address and an empty cache, the
declined branch returns that address. -/
theorem claim_C1_absent_record_returned :
    dictGet ([] : Dict ValidationRecord) "a.example:8000" = none ∧
    (get_available_servers true false (fun _ => false) 0 false
      ["a.example:8000"] [] []).validServers = ["a.example:8000"] :=
  ⟨rfl, rfl⟩

/-- C2 (counterexample): loading is NOT failure-proof. A validation cache
row whose timestamp does not parse makes `_load_validation_cache` propagate
the `ValueError` from `datetime.fromisoformat` (nothing catches it), and an
unparseable metadata file makes `_load_metadata` propagate
`json.JSONDecodeError`. -/
theorem claim_C2_counterexample :
    (load_validation_cache
      (some [⟨"a.example:8000", "True", "not-a-timestamp"⟩])).isOk = false ∧
    (load_metadata .malformed).isOk = false :=
  ⟨rfl, rfl⟩

/-- C2 (amended): a MISSING validation cache file or metadata file is indeed
treated as an empty store, but a record whose timestamp fails to parse makes
the cache load fail (it is not dropped), and an unparseable metadata file
propagates a fatal error; with every timestamp parseable the load succeeds. -/
theorem claim_C2_amended (rows : List CsvRow) :
    load_validation_cache none = .ok [] ∧
    load_metadata .missing = .ok [] ∧
    (load_metadata .malformed).isOk = false ∧
    ((∃ r ∈ rows, (fromisoformat r.timestamp).isOk = false) →
      (load_validation_cache (some rows)).isOk = false) ∧
    ((∀ r ∈ rows, (fromisoformat r.timestamp).isOk = true) →
      (load_validation_cache (some rows)).isOk = true) :=
  ⟨rfl, rfl, rfl,
   fun h => loadRows_isOk_false rows [] h,
   fun h => loadRows_isOk_true rows [] h⟩

/-- C2 (witness): the amended theorem applied to a concrete file whose
second row has an unparseable timestamp. -/
theorem claim_C2_amended_witness :
    (load_validation_cache
      (some [⟨"a.example:8000", "True", "12"⟩,
             ⟨"b.example:8000", "True", "not-a-timestamp"⟩])).isOk = false :=
  (claim_C2_amended _).2.2.2.1
    ⟨⟨"b.example:8000", "True", "not-a-timestamp"⟩, by decide, by decide⟩

/-- C3 (counterexample): a catalog explicitly cached as the empty sequence
does NOT suppress the live fetch. `get_models` guards with `if cached_models:`
(`src/main.py:205`), which is falsy for the cached empty list, so after
`cache_models(addr, [])` a call to `get_models` still performs a live fetch
(and here overwrites the cached empty catalog). -/
theorem claim_C3_counterexample :
    get_cached_models (cache_models [] "http://a.example:8000" [] 0)
      "http://a.example:8000" = [] ∧
    (get_models "http://a.example:8000" (cache_models [] "http://a.example:8000" [] 0) 1
      (.ok [⟨"m"⟩])).fetched = true :=
  ⟨rfl, rfl⟩

/-- C3 (amended): for every address with a previously cached NON-EMPTY model
catalog, `get_models` returns the cached catalog without a live fetch and
leaves the metadata store unchanged; an address whose cached catalog is empty
or absent always triggers a live fetch. -/
theorem claim_C3_cached_catalog (base_url : String) (meta : MetaState) (now : Int)
    (live : FetchResult) :
    (get_cached_models meta base_url ≠ [] →
      (get_models base_url meta now live).models = get_cached_models meta base_url ∧
      (get_models base_url meta now live).fetched = false ∧
      (get_models base_url meta now live).meta = meta) ∧
    (get_cached_models meta base_url = [] →
      (get_models base_url meta now live).fetched = true) := by
  constructor
  · intro h
    simp [get_models, h]
  · intro h
    cases live <;> simp [get_models, h]

/-- C3 (witness): a cached one-model catalog is served without fetching even
when the network would fail, and an empty cache entry triggers a fetch. -/
theorem claim_C3_cached_catalog_witness :
    (get_models "http://a.example:8000"
      (cache_models [] "http://a.example:8000" [⟨"m1"⟩] 0) 5 .httpError).fetched = false ∧
    (get_models "http://b.example:8000" [] 5 (.ok [⟨"m2"⟩])).fetched = true :=
  ⟨((claim_C3_cached_catalog "http://a.example:8000"
      (cache_models [] "http://a.example:8000" [⟨"m1"⟩] 0) 5 .httpError).1
        (by decide)).2.1,
   (claim_C3_cached_catalog "http://b.example:8000" [] 5 (.ok [⟨"m2"⟩])).2 (by decide)⟩

/-- C4: in a cache-using validation pass over the known addresses, an
address holding a fresh cached record is never probed and its cached verdict
decides its membership in the valid set; an address with a stale or absent
record is probed, and the saved cache holds a record for it with the probe's
outcome and the current timestamp. -/
theorem claim_C4_validation_cache_policy (probe : String → Bool) (now : Int)
    (prune : Bool) (servers : List String) (cache0 : Dict ValidationRecord)
    (s : String) (hs : s ∈ servers) :
    (∀ r, dictGet cache0 s = some r → isFreshAt r now = true →
      s ∉ (validate_all_servers probe now prune servers cache0).probed ∧
      (s ∈ (validate_all_servers probe now prune servers cache0).validServers ↔
        r.valid = true)) ∧
    ((∀ r, dictGet cache0 s = some r → isFreshAt r now = false) →
      s ∈ (validate_all_servers probe now prune servers cache0).probed ∧
      dictGet (validate_all_servers probe now prune servers cache0).cache s =
        some ⟨probe s, now⟩) := by
  have hinit : CacheInv probe now cache0 cache0 := fun t => Or.inl rfl
  have hres : (validate_all_servers probe now prune servers cache0).probed =
      (validatePass probe now ⟨cache0, [], [], []⟩ servers).probed ∧
      (validate_all_servers probe now prune servers cache0).validServers =
      (validatePass probe now ⟨cache0, [], [], []⟩ servers).valid ∧
      (validate_all_servers probe now prune servers cache0).cache =
      (validatePass probe now ⟨cache0, [], [], []⟩ servers).cache := by
    simp [validate_all_servers]
  obtain ⟨hcinv, hvalid, _⟩ :=
    validatePass_spec probe now cache0 servers ⟨cache0, [], [], []⟩ hinit
  constructor
  · intro r hr hf
    obtain ⟨_, hnp⟩ :=
      validatePass_fresh_not_probed probe now hf servers ⟨cache0, [], [], []⟩ hr
        (List.not_mem_nil s)
    refine ⟨hres.1 ▸ hnp, ?_⟩
    rw [hres.2.1, hvalid]
    have hverd : verdict probe now cache0 s = r.valid := by simp [verdict, hr, hf]
    simp [List.mem_filter, hs, hverd]
  · intro hstale
    obtain ⟨hcache, hp⟩ :=
      validatePass_stale_probes probe now cache0 s hstale servers
        ⟨cache0, [], [], []⟩ rfl hs
    exact ⟨hres.1 ▸ hp, hres.2.2 ▸ hcache⟩

/-- C4 (witness): over servers `["a", "b"]` with a fresh record for `"a"`
only, the pass probes `"b"` but not `"a"`, writes `"b"`'s probed record, and
keeps `"a"` valid from cache. -/
theorem claim_C4_validation_cache_policy_witness :
    "a" ∉ (validate_all_servers (fun _ => true) 10 false ["a", "b"]
      [("a", ⟨true, 0⟩)]).probed ∧
    ("a" ∈ (validate_all_servers (fun _ => true) 10 false ["a", "b"]
      [("a", ⟨true, 0⟩)]).validServers ↔ True) ∧
    "b" ∈ (validate_all_servers (fun _ => true) 10 false ["a", "b"]
      [("a", ⟨true, 0⟩)]).probed ∧
    dictGet (validate_all_servers (fun _ => true) 10 false ["a", "b"]
      [("a", ⟨true, 0⟩)]).cache "b" = some ⟨true, 10⟩ := by
  have hfresh := (claim_C4_validation_cache_policy (fun _ => true) 10 false
    ["a", "b"] [("a", ⟨true, 0⟩)] "a" (by decide)).1 ⟨true, 0⟩ (by decide) (by decide)
  have hstale := (claim_C4_validation_cache_policy (fun _ => true) 10 false
    ["a", "b"] [("a", ⟨true, 0⟩)] "b" (by decide)).2
    (fun r hr => by simp [dictGet] at hr)
  exact ⟨hfresh.1, by rw [hfresh.2]; simp, hstale.1, hstale.2⟩

/-- C5: pruning is all-or-nothing. When the operator declines, the known
list `self.servers` is unchanged by the pass; when the operator accepts, it
becomes exactly `self.valid_servers`, which is the valid subset of the
original list in its original relative order (a filter of the input list). -/
theorem claim_C5_prune_all_or_nothing (probe : String → Bool) (now : Int)
    (servers : List String) (cache0 : Dict ValidationRecord) :
    (validate_all_servers probe now false servers cache0).servers = servers ∧
    (validate_all_servers probe now true servers cache0).servers =
      (validate_all_servers probe now true servers cache0).validServers ∧
    (validate_all_servers probe now true servers cache0).validServers =
      servers.filter (verdict probe now cache0) := by
  have hinit : CacheInv probe now cache0 cache0 := fun t => Or.inl rfl
  obtain ⟨_, hvalid, hinvalid⟩ :=
    validatePass_spec probe now cache0 servers ⟨cache0, [], [], []⟩ hinit
  simp only [List.nil_append] at hvalid hinvalid
  refine ⟨?_, ?_, ?_⟩
  · simp [validate_all_servers]
  · by_cases hinv : (validatePass probe now ⟨cache0, [], [], []⟩ servers).invalid = []
    · have hall : ∀ a ∈ servers, verdict probe now cache0 a := by
        intro a ha
        have := (List.filter_eq_nil_iff.mp (hinvalid ▸ hinv)) a ha
        simpa using this
      have : servers.filter (verdict probe now cache0) = servers :=
        List.filter_eq_self.mpr hall
      simp [validate_all_servers, hinv, hvalid, this]
    · simp [validate_all_servers, hinv]
  · simp [validate_all_servers, hvalid]

/-- C6: a validation record is classified fresh iff its age is strictly
below the 30-minute window; at exactly 30 minutes it is stale, and a
cache-using pass accordingly probes an address whose record is exactly
30 minutes old. -/
theorem claim_C6_freshness_strict (v : Bool) (ts now : Int) (probe : String → Bool)
    (s : String) :
    (isFreshAt ⟨v, ts⟩ now = true ↔ now - ts < freshWindow) ∧
    isFreshAt ⟨v, ts⟩ (ts + freshWindow) = false ∧
    s ∈ (validate_all_servers probe (ts + freshWindow) false [s]
      [(s, ⟨v, ts⟩)]).probed := by
  have hstale : isFreshAt ⟨v, ts⟩ (ts + freshWindow) = false := by
    simp [isFreshAt]
  refine ⟨by simp [isFreshAt], hstale, ?_⟩
  have hget : dictGet [(s, (⟨v, ts⟩ : ValidationRecord))] s = some ⟨v, ts⟩ := by
    simp [dictGet]
  have := validatePass_stale_probes probe (ts + freshWindow)
    [(s, ⟨v, ts⟩)] s
    (fun r hr => by rw [hget] at hr; injection hr with h; rw [← h]; exact hstale)
    [s] ⟨[(s, ⟨v, ts⟩)], [], [], []⟩ rfl (List.mem_singleton.mpr rfl)
  simpa [validate_all_servers] using this.2

/-- C7: from the `Prompting` state, the reserved token `"b"` always moves to
`SelectingModel` with the selected server (and selected model) unchanged,
`"s"` always moves to `SelectingServer`, and neither token is dispatched to
`generate` (the dispatched component is `none`). -/
theorem claim_C7_reserved_tokens (st : SessionState) (_hphase : st.phase = .prompting) :
    promptStep st "b" = ({ st with phase := .selectingModel }, none) ∧
    (promptStep st "b").1.base_url = st.base_url ∧
    promptStep st "s" = ({ st with phase := .selectingServer }, none) := by
  have hb : strToLower "b" = "b" := by decide
  have hs : strToLower "s" = "s" := by decide
  refine ⟨?_, ?_, ?_⟩ <;> simp [promptStep, hb, hs]

/-- C7 (witness): the reserved tokens applied in a concrete `Prompting`
state. -/
theorem claim_C7_reserved_tokens_witness :
    promptStep ⟨.prompting, "http://a.example:8000", some "m1"⟩ "b" =
      (⟨.selectingModel, "http://a.example:8000", some "m1"⟩, none) ∧
    promptStep ⟨.prompting, "http://a.example:8000", some "m1"⟩ "s" =
      (⟨.selectingServer, "http://a.example:8000", some "m1"⟩, none) := by
  have h := claim_C7_reserved_tokens ⟨.prompting, "http://a.example:8000", some "m1"⟩ rfl
  exact ⟨h.1, h.2.2⟩

/-- C8: the generation consumer emits exactly the concatenation, in stream
order, of the response fields of the well-formed fragments that carry one,
skipping malformed and response-less fragments; in particular the fragment
stream `{"response":"Hel"}`, `{"response":"lo"}`, `{}` yields `"Hello"`.
(Truthiness in `if data.get("response"):` skips an empty response string,
which contributes nothing to the concatenation.) -/
theorem claim_C8_stream_concat (frags : List StreamFragment) :
    generateOutput frags = joinAll (carriedResponses frags) ∧
    generateOutput [.obj (some "Hel"), .obj (some "lo"), .obj none] = "Hello" := by
  constructor
  · induction frags with
    | nil => rfl
    | cons f rest ih =>
      cases f with
      | malformed => simpa [generateOutput, carriedResponses] using ih
      | obj o =>
        cases o with
        | none => simpa [generateOutput, carriedResponses] using ih
        | some s =>
          by_cases h : s = "" <;>
            simp [generateOutput, carriedResponses, joinAll, h, ih]
  · rfl

/-- C9: for EVERY store — including one already holding a catalog for the
address, which `cache_models` overwrites — `cache_models` followed by
`get_cached_models` on the same address round-trips the exact ordered
sequence of model descriptors; and `get_cached_models` of an address whose
catalog was never cached returns the empty sequence. -/
theorem claim_C9_models_roundtrip (st : MetaState) (addr : String)
    (models : List ModelDescriptor) (now : Int) :
    get_cached_models (cache_models st addr models now) addr = models ∧
    ((∀ e, dictGet st addr = some e → e.models = none) →
      get_cached_models st addr = []) := by
  constructor
  · simp [get_cached_models, cache_models]
  · intro h
    rcases he : dictGet st addr with _ | e
    · simp [get_cached_models, he, MetaEntry.empty]
    · simp [get_cached_models, he, h e he]

/-- C9 (witness): the round-trip on a store that already caches a one-model
catalog for the address (the overwrite case), and the empty result on a
store holding only a note for the address (so "never cached" is about the
models key, not the whole entry). -/
theorem claim_C9_models_roundtrip_witness :
    get_cached_models (cache_models (cache_models [] "a.example:8000" [⟨"old"⟩] 0)
      "a.example:8000" [⟨"m1"⟩, ⟨"m2"⟩] 7) "a.example:8000" = [⟨"m1"⟩, ⟨"m2"⟩] ∧
    get_cached_models (set_note [] "a.example:8000" "fast") "a.example:8000" = [] :=
  ⟨(claim_C9_models_roundtrip (cache_models [] "a.example:8000" [⟨"old"⟩] 0)
      "a.example:8000" [⟨"m1"⟩, ⟨"m2"⟩] 7).1,
   (claim_C9_models_roundtrip (set_note [] "a.example:8000" "fast")
      "a.example:8000" [⟨"m1"⟩, ⟨"m2"⟩] 7).2
     (by intro e he; simp [set_note, MetaEntry.empty, dictGet, dictSet] at he; rw [← he])⟩

/-- C10: a listed address lacking a scheme is normalized (prefixed with
`http://`) by `select_server` before becoming `base_url`, the key under
which `get_models` caches the catalog, while `set_note` keys by the raw
listed address; the two keys differ, so after a successful catalog fetch for
such a server `get_cached_models` of the raw address is still empty. -/
theorem claim_C10_metadata_key_mismatch (a : String) (st : MetaState) (now : Int)
    (live : FetchResult)
    (hscheme : (strStartsWith a "http://" || strStartsWith a "https://") = false)
    (hraw : ∀ e, dictGet st a = some e → e.models = none) :
    normalizeAddr a ≠ a ∧
    get_cached_models (get_models (normalizeAddr a) st now live).meta a = [] := by
  have hna : normalizeAddr a = "http://" ++ a := by
    simp [normalizeAddr, hscheme]
  have hne : normalizeAddr a ≠ a := by
    rw [hna]
    intro h
    have hlen := congrArg String.length h
    rw [String.length_append] at hlen
    have h7 : "http://".length = 7 := by decide
    rw [h7] at hlen
    omega
  have hrawcached : get_cached_models st a = [] := by
    rcases he : dictGet st a with _ | e
    · simp [get_cached_models, he, MetaEntry.empty]
    · simp [get_cached_models, he, hraw e he]
  refine ⟨hne, ?_⟩
  by_cases hc : get_cached_models st (normalizeAddr a) ≠ []
  · simp [get_models, hc, hrawcached]
  · cases live with
    | ok data =>
      have hc' : get_cached_models st (normalizeAddr a) = [] := not_not.mp hc
      have hframe : get_cached_models (cache_models st (normalizeAddr a) data now) a
          = get_cached_models st a := by
        simp [get_cached_models, cache_models, dictGet_set_ne _ _ hne]
      simp [get_models, hc', hframe, hrawcached]
    | httpError => simp [get_models, hc, hrawcached]

/-- C10 (witness): the raw listed address `a.example:8000` caches its
catalog under `http://a.example:8000`, so the raw key stays empty. -/
theorem claim_C10_metadata_key_mismatch_witness :
    normalizeAddr "a.example:8000" ≠ "a.example:8000" ∧
    get_cached_models (get_models (normalizeAddr "a.example:8000") [] 0
      (.ok [⟨"m1"⟩])).meta "a.example:8000" = [] :=
  claim_C10_metadata_key_mismatch "a.example:8000" [] 0 (.ok [⟨"m1"⟩])
    (by decide) (by intro e he; simp [dictGet] at he)

end LlamaApiTester
